import Mathlib

/-!
Verification of the AKEF-ComboNavi input discrimination engine.

This file shallowly embeds the core of the repository:
  * `src/src-tauri/src/input/mod.rs` — the `InputHandler` (per-key state
    table, tap/hold decision on press/release, the hold monitor's progress
    scan and `check_hold_complete`),
  * `src/src-tauri/src/combo/mod.rs` — `InputType`, `KeyIdentifier`,
    `ComboCommand`, `ComboFile`,
  * `src/src-tauri/src/lib.rs` — the step sequencer (`advance_command`,
    `previous_command`, `get_current_command_internal`).

Modelling conventions:
  * `std::time::Instant` becomes a `Nat` millisecond timestamp; every
    operation that calls `Instant::now()` / `elapsed()` in Rust takes the
    current time `now : Nat` explicitly, and `elapsed = now - press_time`
    (truncated `Nat` subtraction; in the program `press_time ≤ now` always
    holds since `Instant` is monotonic).
  * The `HashMap<Key, KeyState>` behind a lock becomes an association list
    `List (Key × KeyState)`; `HashMap` iteration order is unspecified, so
    list order stands in for one arbitrary iteration order.
  * The `f32` progress fraction is modelled by the exact rational
    `elapsed / threshold : ℚ`.
  * The concurrent threads are modelled by explicit interleavings of the
    atomic (lock-protected) operations: `on_key_press`, `on_key_release`,
    `progress_scan` (the read-only part of a monitor tick) and
    `check_hold_complete` (the mutating part of a monitor tick).
  * `rdev::Key` is modelled by the constructors the engine distinguishes;
    `Key.Other n` stands for all remaining `rdev` variants (those hit the
    final `_ => None` arm of `key_to_identifier`).
-/

namespace ComboNavi

/-- Physical keys, modelling `rdev::Key` as far as the engine distinguishes
them.  `Num n` / `Kp n` model `Key::Num1..Num9` / `Key::Kp1..Kp9` (with the
digit as data); `Unknown n` models `Key::Unknown(n)`; `Other n` stands for
every other `rdev` variant, all of which map to `None`. -/
inductive Key where
  | Num : Nat → Key
  | Kp : Nat → Key
  | KeyE : Key
  | Unknown : Nat → Key
  | Other : Nat → Key
  deriving DecidableEq, Repr

/-- `combo::KeyIdentifier`. -/
inductive KeyIdentifier where
  | Number : Nat → KeyIdentifier
  | Chain : KeyIdentifier
  | HeavyAttack : KeyIdentifier
  | MouseLeft : KeyIdentifier
  deriving DecidableEq, Repr

/-- `combo::InputType`. -/
inductive InputType where
  | Tap : InputType
  | Hold : Nat → InputType
  deriving DecidableEq, Repr

/-- `combo::ComboCommand`. -/
structure ComboCommand where
  key : KeyIdentifier
  input_type : InputType
  character : String
  skill_type : String
  memo : String
  is_title : Bool
  deriving DecidableEq, Repr

/-- `combo::ComboFile`. -/
structure ComboFile where
  title : String
  commands : List ComboCommand
  deriving DecidableEq, Repr

/-- `input::KeyEvent`.  The `HoldProgress` fraction (an `f32` in Rust) is
modelled by an exact rational. -/
inductive KeyEvent where
  | KeyDown : Key → KeyEvent
  | KeyUp : Key → KeyEvent
  | HoldComplete : Key → KeyEvent
  | TapComplete : Key → KeyEvent
  | HoldProgress : Key → ℚ → KeyEvent
  deriving DecidableEq, Repr

/-- `input::KeyState`: the per-press record of the key-state table. -/
structure KeyState where
  press_time : Nat
  hold_triggered : Bool
  consumed : Bool
  deriving DecidableEq, Repr

/-- `input::InputHandler`.  The `Arc<RwLock<..>>` wrappers and the optional
event sender are dropped: the handler's lock-protected fields are carried
directly, and events are the return values of the operations. -/
structure InputHandler where
  key_states : List (Key × KeyState)
  current_command : Option ComboCommand
  hold_threshold : Nat
  deriving DecidableEq, Repr

/-- `HashMap::get` on the association list (first occurrence). -/
def lookupKey : List (Key × KeyState) → Key → Option KeyState
  | [], _ => none
  | (k, st) :: rest, key => if k = key then some st else lookupKey rest key

/-- `HashMap::remove` on the association list (first occurrence). -/
def removeKey : List (Key × KeyState) → Key → List (Key × KeyState)
  | [], _ => []
  | (k, st) :: rest, key =>
    if k = key then rest else (k, st) :: removeKey rest key

/-- `states.get_mut(&key)` followed by `state.consumed = true` (first
occurrence). -/
def setConsumed : List (Key × KeyState) → Key → List (Key × KeyState)
  | [], _ => []
  | (k, st) :: rest, key =>
    if k = key then (k, { st with consumed := true }) :: rest
    else (k, st) :: setConsumed rest key

/-- `InputHandler::key_to_identifier` (input/mod.rs lines 80–96).  The Rust
match enumerates `Num1..Num9` and `Kp1..Kp9` one by one; here the digit is
data, guarded to the same range (`Num0`/`Kp0` fall into the `_ => None`
arm in Rust and are rejected by the guard here). -/
def key_to_identifier : Key → Option KeyIdentifier
  | Key.Num n => if 1 ≤ n ∧ n ≤ 9 then some (KeyIdentifier.Number n) else none
  | Key.Kp n => if 1 ≤ n ∧ n ≤ 9 then some (KeyIdentifier.Number n) else none
  | Key.KeyE => some KeyIdentifier.Chain
  | Key.Unknown n => if n = 1 then some KeyIdentifier.HeavyAttack else none
  | Key.Other _ => none

/-- `InputHandler::matches_current_command` (input/mod.rs lines 99–107). -/
def InputHandler.matches_current_command (h : InputHandler) (key : Key) : Bool :=
  match h.current_command with
  | some cmd =>
    match key_to_identifier key with
    | some kid => decide (cmd.key = kid)
    | none => false
  | none => false

/-- `InputHandler::current_command_requires_hold` (input/mod.rs lines
110–117): `matches!(cmd.input_type, InputType::Hold { .. })`. -/
def InputHandler.current_command_requires_hold (h : InputHandler) : Bool :=
  match h.current_command with
  | some cmd =>
    match cmd.input_type with
    | InputType.Hold _ => true
    | InputType.Tap => false
  | none => false

/-- `InputHandler::new` (input/mod.rs lines 53–60): empty table, no current
command, 300 ms hold threshold. -/
def InputHandler.new : InputHandler :=
  { key_states := [], current_command := none, hold_threshold := 300 }

/-- `InputHandler::with_hold_threshold` (input/mod.rs lines 63–66). -/
def InputHandler.with_hold_threshold (h : InputHandler) (threshold_ms : Nat) :
    InputHandler :=
  { h with hold_threshold := threshold_ms }

/-- `InputHandler::set_current_command` (input/mod.rs lines 69–72). -/
def InputHandler.set_current_command (h : InputHandler)
    (command : Option ComboCommand) : InputHandler :=
  { h with current_command := command }

/-- `InputHandler::on_key_press` (input/mod.rs lines 120–149).  If the key
is already in the table, return `none` (key-repeat).  Otherwise insert a
fresh record; then, for a matching tap command, mark the record consumed
(the `try_write` succeeds in this sequential model) and return
`TapComplete`, else return `KeyDown`. -/
def InputHandler.on_key_press (h : InputHandler) (key : Key) (now : Nat) :
    InputHandler × Option KeyEvent :=
  if (lookupKey h.key_states key).isSome then
    (h, none)
  else
    let h1 : InputHandler :=
      { h with key_states :=
          (key, { press_time := now, hold_triggered := false,
                  consumed := false }) :: h.key_states }
    if h1.matches_current_command key && !h1.current_command_requires_hold then
      ({ h1 with key_states := setConsumed h1.key_states key },
        some (KeyEvent.TapComplete key))
    else
      (h1, some (KeyEvent.KeyDown key))

/-- `InputHandler::on_key_release` (input/mod.rs lines 152–178). -/
def InputHandler.on_key_release (h : InputHandler) (key : Key) (now : Nat) :
    InputHandler × Option KeyEvent :=
  let h1 : InputHandler := { h with key_states := removeKey h.key_states key }
  match lookupKey h.key_states key with
  | some st =>
    if st.consumed then (h1, some (KeyEvent.KeyUp key))
    else if !st.hold_triggered then
      if h1.matches_current_command key && h1.current_command_requires_hold then
        if h.hold_threshold ≤ now - st.press_time then
          (h1, some (KeyEvent.HoldComplete key))
        else (h1, some (KeyEvent.KeyUp key))
      else (h1, some (KeyEvent.KeyUp key))
    else (h1, some (KeyEvent.KeyUp key))
  | none => (h1, some (KeyEvent.KeyUp key))

/-- The scanning loop of `InputHandler::check_hold_complete` (input/mod.rs
lines 181–198): find the first record that is not consumed, not yet
triggered, past the threshold, and matching a hold-type current command;
set its `hold_triggered` flag and return its key. -/
def checkHoldLoop (h : InputHandler) (now : Nat) :
    List (Key × KeyState) → List (Key × KeyState) × Option Key
  | [] => ([], none)
  | (k, st) :: rest =>
    if !st.consumed && !st.hold_triggered
        && decide (h.hold_threshold ≤ now - st.press_time)
        && h.matches_current_command k && h.current_command_requires_hold then
      ((k, { st with hold_triggered := true }) :: rest, some k)
    else
      let r := checkHoldLoop h now rest
      ((k, st) :: r.1, r.2)

/-- `InputHandler::check_hold_complete` (input/mod.rs lines 181–198). -/
def InputHandler.check_hold_complete (h : InputHandler) (now : Nat) :
    InputHandler × Option Key :=
  let r := checkHoldLoop h now h.key_states
  ({ h with key_states := r.1 }, r.2)

/-- The progress-emitting loop of the hold-monitor thread
(input/mod.rs lines 230–248): under a read lock, for every record that is
not consumed, not triggered, and matching a hold-type current command,
compute `progress = elapsed / threshold`; if `progress ≥ 1.0` skip (left
to `check_hold_complete`), else emit `HoldProgress(key, progress.min(1.0))`. -/
def holdScanEvents (h : InputHandler) (now : Nat) :
    List (Key × KeyState) → List KeyEvent
  | [] => []
  | (k, st) :: rest =>
    if !st.consumed && !st.hold_triggered
        && h.matches_current_command k && h.current_command_requires_hold then
      let progress : ℚ :=
        ((now - st.press_time : Nat) : ℚ) / (h.hold_threshold : ℚ)
      if 1 ≤ progress then holdScanEvents h now rest
      else KeyEvent.HoldProgress k (min progress 1) :: holdScanEvents h now rest
    else holdScanEvents h now rest

/-- The read-only first half of one monitor tick (input/mod.rs lines
230–248): the list of `HoldProgress` events the tick emits.  It takes the
table under a read lock and mutates nothing. -/
def InputHandler.progress_scan (h : InputHandler) (now : Nat) : List KeyEvent :=
  holdScanEvents h now h.key_states

/-- A sequence of `check_hold_complete` monitor calls at the given tick
times, collecting every key reported hold-complete (each such report makes
the monitor thread send one `HoldComplete`, input/mod.rs lines 250–252). -/
def runTicks : InputHandler → List Nat → InputHandler × List Key
  | h, [] => (h, [])
  | h, t :: ts =>
    let r := h.check_hold_complete t
    let rest := runTicks r.1 ts
    (rest.1, r.2.toList ++ rest.2)

/-! ### The step sequencer (lib.rs) -/

/-- The non-title steps of a combo file:
`file.commands.iter().filter(|c| !c.is_title)` (lib.rs). -/
def nonTitleCommands (f : ComboFile) : List ComboCommand :=
  f.commands.filter (fun c => !c.is_title)

/-- The sequencer-relevant projection of `AppState` (lib.rs lines 18–25):
the loaded combo file and the current step index. -/
structure SeqState where
  combo_file : Option ComboFile
  current_index : Nat
  deriving DecidableEq, Repr

/-- `CurrentCommandInfo` (lib.rs lines 103–113). -/
structure CurrentCommandInfo where
  index : Nat
  total : Nat
  title : String
  key_display : String
  character : String
  skill_type : String
  memo : String
  is_hold : Bool
  deriving DecidableEq, Repr

/-- Whether an input type is a hold, as
`matches!(cmd.input_type, InputType::Hold { .. })` (lib.rs). -/
def isHoldType : InputType → Bool
  | InputType.Hold _ => true
  | InputType.Tap => false

/-- The `key_display` computation of `get_current_command_internal`
(lib.rs lines 66–78). -/
def keyDisplay (cmd : ComboCommand) : String :=
  match cmd.key with
  | KeyIdentifier.Number n =>
    match cmd.input_type with
    | InputType.Hold _ => "Hold " ++ toString n
    | InputType.Tap => toString n
  | KeyIdentifier.Chain => "E"
  | KeyIdentifier.HeavyAttack => "L"
  | KeyIdentifier.MouseLeft => "L"

/-- `AppState::get_current_command_internal` (lib.rs lines 57–94). -/
def get_current_command_internal (s : SeqState) : Option CurrentCommandInfo :=
  match s.combo_file with
  | some file =>
    let commands := nonTitleCommands file
    if hlt : s.current_index < commands.length then
      let cmd := commands.get ⟨s.current_index, hlt⟩
      some { index := s.current_index, total := commands.length,
             title := file.title, key_display := keyDisplay cmd,
             character := cmd.character, skill_type := cmd.skill_type,
             memo := cmd.memo, is_hold := isHoldType cmd.input_type }
    else none
  | none => none

/-- `advance_command` (lib.rs lines 148–164): with a loaded file and a
non-empty non-title list, step the index forward modulo the list length;
with an empty list, return early with `None` and no state change. -/
def advance_command (s : SeqState) : SeqState × Option CurrentCommandInfo :=
  match s.combo_file with
  | some file =>
    let commands := nonTitleCommands file
    if commands.isEmpty then (s, none)
    else
      let s1 : SeqState :=
        { s with current_index := (s.current_index + 1) % commands.length }
      (s1, get_current_command_internal s1)
  | none => (s, get_current_command_internal s)

/-- `previous_command` (lib.rs lines 166–182): with a loaded file and a
non-empty non-title list, decrement the index when it is positive. -/
def previous_command (s : SeqState) : SeqState × Option CurrentCommandInfo :=
  match s.combo_file with
  | some file =>
    let commands := nonTitleCommands file
    let s1 : SeqState :=
      if commands.isEmpty then s
      else if 0 < s.current_index then
        { s with current_index := s.current_index - 1 }
      else s
    (s1, get_current_command_internal s1)
  | none => (s, get_current_command_internal s)

/-! ### Helper lemmas -/

@[simp]
theorem matches_update_states (h : InputHandler) (l : List (Key × KeyState))
    (k : Key) :
    ({ h with key_states := l } : InputHandler).matches_current_command k
      = h.matches_current_command k := rfl

@[simp]
theorem requires_hold_update_states (h : InputHandler)
    (l : List (Key × KeyState)) :
    ({ h with key_states := l } : InputHandler).current_command_requires_hold
      = h.current_command_requires_hold := rfl

@[simp]
theorem hold_threshold_update_states (h : InputHandler)
    (l : List (Key × KeyState)) :
    ({ h with key_states := l } : InputHandler).hold_threshold
      = h.hold_threshold := rfl

@[simp]
theorem current_command_update_states (h : InputHandler)
    (l : List (Key × KeyState)) :
    ({ h with key_states := l } : InputHandler).current_command
      = h.current_command := rfl

@[simp]
theorem key_states_update_states (h : InputHandler)
    (l : List (Key × KeyState)) :
    ({ h with key_states := l } : InputHandler).key_states = l := rfl

@[simp]
theorem update_update_states (h : InputHandler)
    (l1 l2 : List (Key × KeyState)) :
    ({ ({ h with key_states := l1 } : InputHandler) with key_states := l2 }
      : InputHandler) = { h with key_states := l2 } := rfl

theorem update_states_self (h : InputHandler) :
    ({ h with key_states := h.key_states } : InputHandler) = h := rfl

theorem lookupKey_eq_none_iff (l : List (Key × KeyState)) (k : Key) :
    lookupKey l k = none ↔ k ∉ l.map Prod.fst := by
  induction l with
  | nil => simp [lookupKey]
  | cons p rest ih =>
    obtain ⟨k1, st1⟩ := p
    by_cases hk : k1 = k
    · subst hk; simp [lookupKey]
    · simp only [lookupKey, if_neg hk, ih, List.map_cons, List.mem_cons,
        not_or]
      constructor
      · intro hn; exact ⟨fun heq => hk heq.symm, hn⟩
      · intro hn; exact hn.2

theorem map_fst_setConsumed (l : List (Key × KeyState)) (k : Key) :
    (setConsumed l k).map Prod.fst = l.map Prod.fst := by
  induction l with
  | nil => simp [setConsumed]
  | cons p rest ih =>
    obtain ⟨k1, st1⟩ := p
    by_cases hk : k1 = k
    · simp [setConsumed, hk]
    · simp [setConsumed, hk, ih]

/-- The state and event produced by a press starting from an empty table. -/
theorem on_key_press_empty (h : InputHandler) (k : Key) (t0 : Nat)
    (hks : h.key_states = []) :
    h.on_key_press k t0 =
      ({ h with key_states :=
          [(k, { press_time := t0, hold_triggered := false,
                 consumed := h.matches_current_command k
                   && !h.current_command_requires_hold })] },
       some (if h.matches_current_command k
              && !h.current_command_requires_hold
             then KeyEvent.TapComplete k else KeyEvent.KeyDown k)) := by
  unfold InputHandler.on_key_press
  rw [hks]
  by_cases hcond : h.matches_current_command k
      && !h.current_command_requires_hold
  · simp [lookupKey, setConsumed, hcond]
  · simp only [Bool.not_eq_true] at hcond
    simp [lookupKey, setConsumed, hcond]

/-- The behaviour of a release when the table holds exactly the one record
being released. -/
theorem on_key_release_single (h : InputHandler) (k : Key) (st : KeyState)
    (tr : Nat) (hks : h.key_states = [(k, st)]) :
    h.on_key_release k tr =
      ({ h with key_states := [] },
       some (if st.consumed = false ∧ st.hold_triggered = false
              ∧ h.matches_current_command k = true
              ∧ h.current_command_requires_hold = true
              ∧ h.hold_threshold ≤ tr - st.press_time
             then KeyEvent.HoldComplete k else KeyEvent.KeyUp k)) := by
  unfold InputHandler.on_key_release
  rw [hks]
  simp only [lookupKey, removeKey, if_pos rfl]
  cases hc : st.consumed with
  | true => simp [hc]
  | false =>
    cases ht : st.hold_triggered with
    | true => simp [hc, ht]
    | false =>
      cases hm : h.matches_current_command k with
      | false => simp [hc, ht, hm]
      | true =>
        cases hH : h.current_command_requires_hold with
        | false => simp [hc, ht, hm, hH]
        | true =>
          by_cases hth : h.hold_threshold ≤ tr - st.press_time
          · simp [hc, ht, hm, hH, hth]
          · simp [hc, ht, hm, hH, hth]

/-- One `check_hold_complete` call on a single-record table. -/
theorem check_hold_complete_single (h : InputHandler) (k : Key)
    (st : KeyState) (t : Nat) (hks : h.key_states = [(k, st)]) :
    h.check_hold_complete t =
      if !st.consumed && !st.hold_triggered
          && decide (h.hold_threshold ≤ t - st.press_time)
          && h.matches_current_command k
          && h.current_command_requires_hold then
        ({ h with key_states := [(k, { st with hold_triggered := true })] },
         some k)
      else ({ h with key_states := [(k, st)] }, none) := by
  unfold InputHandler.check_hold_complete
  rw [hks]
  by_cases hcond : (!st.consumed && !st.hold_triggered
      && decide (h.hold_threshold ≤ t - st.press_time)
      && h.matches_current_command k && h.current_command_requires_hold)
      = true
  · simp [checkHoldLoop, hcond]
  · simp only [Bool.not_eq_true] at hcond
    simp [checkHoldLoop, hcond]

/-- Running the monitor's `check_hold_complete` at a list of tick times over
a single-record table: the `hold_triggered` flag ends up set exactly when it
was already set or some tick crossed the threshold (for an unconsumed record
matching a hold-type command), and the monitor reports the key exactly once,
at the first crossing tick, when the flag was not already set. -/
theorem runTicks_single (k : Key) (t0 : Nat) (c : Bool) :
    ∀ (ts : List Nat) (h : InputHandler) (b : Bool),
      0 < h.hold_threshold →
      h.key_states = [(k, KeyState.mk t0 b c)] →
      runTicks h ts =
        ({ h with key_states := [(k, KeyState.mk t0
            (b || (!c && h.matches_current_command k
              && h.current_command_requires_hold
              && ts.any (fun t => decide (t0 + h.hold_threshold ≤ t)))) c)] },
         if b = false ∧ (!c && h.matches_current_command k
              && h.current_command_requires_hold
              && ts.any (fun t => decide (t0 + h.hold_threshold ≤ t))) = true
         then [k] else []) := by
  intro ts
  induction ts with
  | nil =>
    intro h b hθ hks
    simp only [runTicks, List.any_nil, Bool.and_false, Bool.or_false,
      Bool.false_eq_true, and_false, if_false]
    rw [← hks, update_states_self]
  | cons t ts ih =>
    intro h b hθ hks
    rw [runTicks]
    rw [check_hold_complete_single h k _ t hks]
    by_cases hcond : (!(KeyState.mk t0 b c).consumed
        && !(KeyState.mk t0 b c).hold_triggered
        && decide (h.hold_threshold ≤ t - (KeyState.mk t0 b c).press_time)
        && h.matches_current_command k
        && h.current_command_requires_hold) = true
    · rw [if_pos hcond]
      simp only [Bool.and_eq_true, Bool.not_eq_true',
        decide_eq_true_eq] at hcond
      obtain ⟨⟨⟨⟨hc, hb⟩, hth⟩, hM⟩, hH⟩ := hcond
      have hcr : t0 + h.hold_threshold ≤ t := by omega
      rw [ih _ true (by simpa using hθ) rfl]
      simp [hb, hc, hM, hH, hcr]
    · rw [if_neg hcond]
      simp only [Bool.and_eq_true, Bool.not_eq_true',
        decide_eq_true_eq] at hcond
      rw [ih _ b (by simpa using hθ) rfl]
      by_cases hcr : t0 + h.hold_threshold ≤ t
      · have hth : h.hold_threshold ≤ t - t0 := by omega
        cases hc : c with
        | true => simp [hc, hcr]
        | false =>
          cases hb : b with
          | true => simp [hb, hc, hcr]
          | false =>
            cases hM : h.matches_current_command k with
            | false => simp [hb, hc, hM, hcr]
            | true =>
              cases hH : h.current_command_requires_hold with
              | false => simp [hb, hc, hM, hH, hcr]
              | true =>
                subst hc hb
                exact absurd ⟨⟨⟨⟨rfl, rfl⟩, hth⟩, hM⟩, hH⟩ hcond
      · have hth : ¬ (h.hold_threshold ≤ t - t0) := by omega
        simp [hcr]

/-! ### Claims -/

/-- C2: for a release of a key whose record has `consumed = false` and
`hold_triggered = false`, when the key matches the current expected action
and that action requires holding, `on_key_release` returns
`HoldComplete(key)` when the elapsed time since `press_time` is at least the
hold threshold, and only `KeyUp(key)` when it is below the threshold. -/
theorem release_decides_hold_at_threshold (h : InputHandler) (k : Key)
    (st : KeyState) (now : Nat)
    (hlk : lookupKey h.key_states k = some st)
    (hc : st.consumed = false) (ht : st.hold_triggered = false)
    (hm : h.matches_current_command k = true)
    (hH : h.current_command_requires_hold = true) :
    (h.hold_threshold ≤ now - st.press_time →
      (h.on_key_release k now).2 = some (KeyEvent.HoldComplete k))
    ∧ (now - st.press_time < h.hold_threshold →
      (h.on_key_release k now).2 = some (KeyEvent.KeyUp k)) := by
  unfold InputHandler.on_key_release
  rw [hlk]
  constructor
  · intro hth
    simp [hc, ht, hm, hH, hth]
  · intro hth
    simp [hc, ht, hm, hH, Nat.not_le.mpr hth]

theorem release_decides_hold_at_threshold_witness :
    (lookupKey [(Key.Num 2, KeyState.mk 0 false false)] (Key.Num 2)
        = some (KeyState.mk 0 false false))
    ∧ ((InputHandler.mk [(Key.Num 2, KeyState.mk 0 false false)]
          (some (ComboCommand.mk (KeyIdentifier.Number 2) (InputType.Hold 300)
            "" "" "" false)) 300).hold_threshold ≤ 450 - (0 : Nat) →
        ((InputHandler.mk [(Key.Num 2, KeyState.mk 0 false false)]
          (some (ComboCommand.mk (KeyIdentifier.Number 2) (InputType.Hold 300)
            "" "" "" false)) 300).on_key_release (Key.Num 2) 450).2
          = some (KeyEvent.HoldComplete (Key.Num 2)))
    ∧ (450 - (0 : Nat) < (InputHandler.mk
          [(Key.Num 2, KeyState.mk 0 false false)]
          (some (ComboCommand.mk (KeyIdentifier.Number 2) (InputType.Hold 300)
            "" "" "" false)) 300).hold_threshold →
        ((InputHandler.mk [(Key.Num 2, KeyState.mk 0 false false)]
          (some (ComboCommand.mk (KeyIdentifier.Number 2) (InputType.Hold 300)
            "" "" "" false)) 300).on_key_release (Key.Num 2) 450).2
          = some (KeyEvent.KeyUp (Key.Num 2))) :=
  ⟨by decide,
    (release_decides_hold_at_threshold _ (Key.Num 2) (KeyState.mk 0 false false)
      450 (by decide) rfl rfl (by decide) (by decide)).1,
    (release_decides_hold_at_threshold _ (Key.Num 2) (KeyState.mk 0 false false)
      450 (by decide) rfl rfl (by decide) (by decide)).2⟩

/-- C3: pressing a key that matches a tap-type current expected action
creates the record, marks it `consumed = true`, and returns
`TapComplete(key)`; the subsequent release of that key returns only
`KeyUp(key)` and never `HoldComplete(key)`. -/
theorem tap_resolves_immediately (h : InputHandler) (k : Key) (t tr : Nat)
    (hf : lookupKey h.key_states k = none)
    (hm : h.matches_current_command k = true)
    (hH : h.current_command_requires_hold = false) :
    (h.on_key_press k t).2 = some (KeyEvent.TapComplete k)
    ∧ lookupKey (h.on_key_press k t).1.key_states k =
        some { press_time := t, hold_triggered := false, consumed := true }
    ∧ ((h.on_key_press k t).1.on_key_release k tr).2
        = some (KeyEvent.KeyUp k) := by
  unfold InputHandler.on_key_press InputHandler.on_key_release
  rw [hf]
  simp [hm, hH, setConsumed, lookupKey]

theorem tap_resolves_immediately_witness :
    (lookupKey ([] : List (Key × KeyState)) (Key.Num 2) = none)
    ∧ (((InputHandler.mk [] (some (ComboCommand.mk (KeyIdentifier.Number 2)
          InputType.Tap "" "" "" false)) 300).on_key_press (Key.Num 2) 0).2
        = some (KeyEvent.TapComplete (Key.Num 2)))
    ∧ (lookupKey ((InputHandler.mk [] (some (ComboCommand.mk
          (KeyIdentifier.Number 2) InputType.Tap "" "" "" false))
          300).on_key_press (Key.Num 2) 0).1.key_states (Key.Num 2) =
        some (KeyState.mk 0 false true))
    ∧ ((((InputHandler.mk [] (some (ComboCommand.mk (KeyIdentifier.Number 2)
          InputType.Tap "" "" "" false)) 300).on_key_press
          (Key.Num 2) 0).1.on_key_release (Key.Num 2) 100).2
        = some (KeyEvent.KeyUp (Key.Num 2))) :=
  ⟨by decide,
    (tap_resolves_immediately _ (Key.Num 2) 0 100 (by decide) (by decide)
      (by decide)).1,
    (tap_resolves_immediately _ (Key.Num 2) 0 100 (by decide) (by decide)
      (by decide)).2.1,
    (tap_resolves_immediately _ (Key.Num 2) 0 100 (by decide) (by decide)
      (by decide)).2.2⟩

/-- C4: a press of a key that is already present in the key-state table
returns no event and leaves the handler entirely unchanged (so the existing
record's `press_time`, `hold_triggered` and `consumed` are untouched and no
second record appears); moreover `on_key_press` preserves the at-most-one-
record-per-key invariant of the table. -/
theorem repeated_press_is_noop (h : InputHandler) (k : Key) (st : KeyState)
    (now : Nat) (hlk : lookupKey h.key_states k = some st) :
    h.on_key_press k now = (h, none)
    ∧ ∀ (g : InputHandler) (k2 : Key) (t2 : Nat),
        (g.key_states.map Prod.fst).Nodup →
        (((g.on_key_press k2 t2).1).key_states.map Prod.fst).Nodup := by
  constructor
  · unfold InputHandler.on_key_press
    rw [hlk]
    simp
  · intro g k2 t2 hnd
    unfold InputHandler.on_key_press
    cases hl : lookupKey g.key_states k2 with
    | some st2 => simpa [hl] using hnd
    | none =>
      have hnm : k2 ∉ g.key_states.map Prod.fst :=
        (lookupKey_eq_none_iff _ _).mp hl
      simp only [hl, Option.isSome_none, Bool.false_eq_true, if_false]
      split
      · simp [setConsumed, hnm, hnd, map_fst_setConsumed]
      · simp [hnm, hnd]

theorem repeated_press_is_noop_witness :
    (lookupKey [(Key.Num 2, KeyState.mk 7 false false)] (Key.Num 2)
        = some (KeyState.mk 7 false false))
    ∧ ((InputHandler.mk [(Key.Num 2, KeyState.mk 7 false false)] none
          300).on_key_press (Key.Num 2) 99
        = (InputHandler.mk [(Key.Num 2, KeyState.mk 7 false false)] none 300,
           none))
    ∧ ∀ (g : InputHandler) (k2 : Key) (t2 : Nat),
        (g.key_states.map Prod.fst).Nodup →
        (((g.on_key_press k2 t2).1).key_states.map Prod.fst).Nodup :=
  ⟨by decide,
    (repeated_press_is_noop _ (Key.Num 2) (KeyState.mk 7 false false) 99
      (by decide)).1,
    (repeated_press_is_noop (InputHandler.mk
        [(Key.Num 2, KeyState.mk 7 false false)] none 300)
      (Key.Num 2) (KeyState.mk 7 false false) 99 (by decide)).2⟩

/-- C1: in a single press cycle of a key (press, any number of monitor
ticks, then the release), at most one hold completion is reported across
the monitor path and the release path; exactly one is reported when the key
matches a hold-type expected action and the threshold is crossed (by a tick
while held, or at the release); and after a tick has triggered the hold,
the release yields only `KeyUp`, never a second `HoldComplete`. -/
theorem hold_completes_exactly_once (h : InputHandler) (k : Key)
    (t0 tr : Nat) (ts : List Nat)
    (hθ : 0 < h.hold_threshold) (hks : h.key_states = []) :
    ((runTicks (h.on_key_press k t0).1 ts).2.count k
        + (if ((runTicks (h.on_key_press k t0).1 ts).1.on_key_release k tr).2
             = some (KeyEvent.HoldComplete k) then 1 else 0) ≤ 1)
    ∧ (h.matches_current_command k = true →
        h.current_command_requires_hold = true →
        (ts.any (fun t => decide (t0 + h.hold_threshold ≤ t)) = true
          ∨ t0 + h.hold_threshold ≤ tr) →
        (runTicks (h.on_key_press k t0).1 ts).2.count k
          + (if ((runTicks (h.on_key_press k t0).1 ts).1.on_key_release
                k tr).2 = some (KeyEvent.HoldComplete k) then 1 else 0) = 1)
    ∧ (h.matches_current_command k = true →
        h.current_command_requires_hold = true →
        ts.any (fun t => decide (t0 + h.hold_threshold ≤ t)) = true →
        ((runTicks (h.on_key_press k t0).1 ts).1.on_key_release k tr).2
          = some (KeyEvent.KeyUp k)) := by
  have h1eq : (h.on_key_press k t0).1 = { h with key_states :=
      [(k, KeyState.mk t0 false (h.matches_current_command k
        && !h.current_command_requires_hold))] } := by
    rw [on_key_press_empty h k t0 hks]
  rw [h1eq]
  rw [runTicks_single k t0 _ ts _ false (by simpa using hθ) rfl]
  simp only [matches_update_states, requires_hold_update_states,
    hold_threshold_update_states, update_update_states, Bool.false_or]
  rw [on_key_release_single _ k _ tr rfl]
  have hiff : (h.hold_threshold ≤ tr - t0) ↔ (t0 + h.hold_threshold ≤ tr) :=
    by omega
  cases hM : h.matches_current_command k with
  | false => simp [hM]
  | true =>
    cases hH : h.current_command_requires_hold with
    | false => simp [hM, hH]
    | true =>
      cases hA : ts.any (fun t => decide (t0 + h.hold_threshold ≤ t)) with
      | true => simp [hM, hH, hA]
      | false =>
        by_cases hrel : t0 + h.hold_threshold ≤ tr
        · simp [hM, hH, hA, hiff, hrel]
        · simp [hM, hH, hA, hiff, hrel]

/-- Test fixture: a hold-type expected action on the `2` key with the
default 300 ms duration, as parsed from a `U2,...` line. -/
def holdCmd300 : ComboCommand :=
  ComboCommand.mk (KeyIdentifier.Number 2) (InputType.Hold 300) "" "" "" false

/-- Test fixture: an idle handler waiting for `holdCmd300`. -/
def hHold : InputHandler := InputHandler.mk [] (some holdCmd300) 300

theorem hold_completes_exactly_once_witness :
    0 < hHold.hold_threshold
    ∧ hHold.key_states = []
    ∧ (runTicks (hHold.on_key_press (Key.Num 2) 0).1
          [100, 350, 400]).2.count (Key.Num 2)
      + (if ((runTicks (hHold.on_key_press (Key.Num 2) 0).1
            [100, 350, 400]).1.on_key_release (Key.Num 2) 450).2
          = some (KeyEvent.HoldComplete (Key.Num 2)) then 1 else 0) ≤ 1 :=
  ⟨by decide, by decide,
    (hold_completes_exactly_once hHold (Key.Num 2) 0 450 [100, 350, 400]
      (by decide) (by decide)).1⟩

/-- A full press cycle of a key that does not match the current expected
action: the press emits `KeyDown` and creates an inert record, monitor
ticks neither report hold-completion nor change state, the progress scan
emits nothing, and the release removes the record emitting only `KeyUp`. -/
theorem nomatch_cycle (h : InputHandler) (k : Key) (t0 tr : Nat)
    (ts : List Nat) (hθ : 0 < h.hold_threshold) (hks : h.key_states = [])
    (hm : h.matches_current_command k = false) :
    (h.on_key_press k t0).2 = some (KeyEvent.KeyDown k)
    ∧ (h.on_key_press k t0).1.key_states = [(k, KeyState.mk t0 false false)]
    ∧ runTicks (h.on_key_press k t0).1 ts = ((h.on_key_press k t0).1, [])
    ∧ (∀ t : Nat, (h.on_key_press k t0).1.progress_scan t = [])
    ∧ (runTicks (h.on_key_press k t0).1 ts).1.on_key_release k tr
        = ({ h with key_states := [] }, some (KeyEvent.KeyUp k)) := by
  have h1eq : (h.on_key_press k t0).1 = { h with key_states :=
      [(k, KeyState.mk t0 false (h.matches_current_command k
        && !h.current_command_requires_hold))] } := by
    rw [on_key_press_empty h k t0 hks]
  have h2eq : (h.on_key_press k t0).2 = some (KeyEvent.KeyDown k) := by
    rw [on_key_press_empty h k t0 hks]
    simp [hm]
  refine ⟨h2eq, ?_, ?_, ?_, ?_⟩
  · rw [h1eq]; simp [hm]
  · rw [h1eq]
    rw [runTicks_single k t0 _ ts _ false (by simpa using hθ) rfl]
    simp [hm]
  · intro t
    rw [h1eq]
    simp [InputHandler.progress_scan, holdScanEvents, hm]
  · rw [h1eq]
    rw [runTicks_single k t0 _ ts _ false (by simpa using hθ) rfl]
    simp only [matches_update_states, requires_hold_update_states,
      hold_threshold_update_states, update_update_states, Bool.false_or]
    rw [on_key_release_single _ k _ tr rfl]
    simp [hm]

/-- C5: a key that does not match the current expected action — which is in
particular the case whenever no expected action is configured
(`current_command = none`) — produces exactly `KeyDown` at press and `KeyUp`
at release, with no `TapComplete`, `HoldComplete` or `HoldProgress` from any
number of monitor ticks in between, no matter how long the key is held. -/
theorem no_false_completion (h : InputHandler) (k : Key) (t0 tr : Nat)
    (ts : List Nat) (hθ : 0 < h.hold_threshold) (hks : h.key_states = [])
    (hm : h.matches_current_command k = false) :
    (h.on_key_press k t0).2 = some (KeyEvent.KeyDown k)
    ∧ runTicks (h.on_key_press k t0).1 ts = ((h.on_key_press k t0).1, [])
    ∧ (∀ t : Nat, (h.on_key_press k t0).1.progress_scan t = [])
    ∧ (runTicks (h.on_key_press k t0).1 ts).1.on_key_release k tr
        = ({ h with key_states := [] }, some (KeyEvent.KeyUp k))
    ∧ (∀ (g : InputHandler) (k2 : Key), g.current_command = none →
        g.matches_current_command k2 = false) := by
  obtain ⟨e1, _, e3, e4, e5⟩ := nomatch_cycle h k t0 tr ts hθ hks hm
  refine ⟨e1, e3, e4, e5, ?_⟩
  intro g k2 hg
  unfold InputHandler.matches_current_command
  rw [hg]

theorem no_false_completion_witness :
    (0 < (InputHandler.mk [] none 300).hold_threshold)
    ∧ ((InputHandler.mk [] none 300).key_states = [])
    ∧ ((InputHandler.mk [] none 300).matches_current_command (Key.Num 2)
        = false)
    ∧ (((InputHandler.mk [] none 300).on_key_press (Key.Num 2) 0).2
        = some (KeyEvent.KeyDown (Key.Num 2)))
    ∧ (runTicks ((InputHandler.mk [] none 300).on_key_press
          (Key.Num 2) 0).1 [350, 700]
        = (((InputHandler.mk [] none 300).on_key_press (Key.Num 2) 0).1, []))
    ∧ ((runTicks ((InputHandler.mk [] none 300).on_key_press
          (Key.Num 2) 0).1 [350, 700]).1.on_key_release (Key.Num 2) 1000
        = (InputHandler.mk [] none 300, some (KeyEvent.KeyUp (Key.Num 2)))) :=
  ⟨by decide, by decide, by decide,
    (no_false_completion _ (Key.Num 2) 0 1000 [350, 700] (by decide)
      (by decide) (by decide)).1,
    (no_false_completion _ (Key.Num 2) 0 1000 [350, 700] (by decide)
      (by decide) (by decide)).2.1,
    (no_false_completion _ (Key.Num 2) 0 1000 [350, 700] (by decide)
      (by decide) (by decide)).2.2.2.1⟩

/-- C6 counterexample: an unmapped key (`key_to_identifier = none`) does get
a record in the key-state table — `on_key_press` inserts the record before
any mapping check, so the claim "no record is created" is false. -/
theorem unmapped_key_creates_record :
    key_to_identifier (Key.Other 0) = none
    ∧ ((InputHandler.mk [] none 300).on_key_press (Key.Other 0) 5).1.key_states
        = [(Key.Other 0, KeyState.mk 5 false false)]
    ∧ ((InputHandler.mk [] none 300).on_key_press
        (Key.Other 0) 5).1.key_states ≠ [] := by
  refine ⟨by decide, by decide, by decide⟩

/-- C6 (amended): a press of an unmapped key does create a key-state record
(like any other key), but the key never matches the current expected action,
so the engine emits no event for it beyond the raw `KeyDown`/`KeyUp`
passthrough: no `TapComplete`, no `HoldComplete`, no `HoldProgress`, from
either the press/release path or the monitor, and the record is removed on
release. -/
theorem unmapped_key_is_inert (h : InputHandler) (k : Key) (t0 tr : Nat)
    (ts : List Nat) (hθ : 0 < h.hold_threshold) (hks : h.key_states = [])
    (hunm : key_to_identifier k = none) :
    h.matches_current_command k = false
    ∧ (h.on_key_press k t0).2 = some (KeyEvent.KeyDown k)
    ∧ (h.on_key_press k t0).1.key_states = [(k, KeyState.mk t0 false false)]
    ∧ runTicks (h.on_key_press k t0).1 ts = ((h.on_key_press k t0).1, [])
    ∧ (∀ t : Nat, (h.on_key_press k t0).1.progress_scan t = [])
    ∧ (runTicks (h.on_key_press k t0).1 ts).1.on_key_release k tr
        = ({ h with key_states := [] }, some (KeyEvent.KeyUp k)) := by
  have hm : h.matches_current_command k = false := by
    unfold InputHandler.matches_current_command
    cases h.current_command with
    | none => rfl
    | some cmd => rw [hunm]
  obtain ⟨e1, e2, e3, e4, e5⟩ := nomatch_cycle h k t0 tr ts hθ hks hm
  exact ⟨hm, e1, e2, e3, e4, e5⟩

theorem unmapped_key_is_inert_witness :
    (0 < (InputHandler.mk [] none 300).hold_threshold)
    ∧ ((InputHandler.mk [] none 300).key_states = [])
    ∧ (key_to_identifier (Key.Other 0) = none)
    ∧ ((InputHandler.mk [] none 300).matches_current_command (Key.Other 0)
        = false)
    ∧ (((InputHandler.mk [] none 300).on_key_press (Key.Other 0) 5).2
        = some (KeyEvent.KeyDown (Key.Other 0)))
    ∧ ((runTicks ((InputHandler.mk [] none 300).on_key_press
          (Key.Other 0) 5).1 [400]).1.on_key_release (Key.Other 0) 600
        = (InputHandler.mk [] none 300,
           some (KeyEvent.KeyUp (Key.Other 0)))) :=
  ⟨by decide, by decide, by decide,
    (unmapped_key_is_inert _ (Key.Other 0) 5 600 [400] (by decide)
      (by decide) (by decide)).1,
    (unmapped_key_is_inert _ (Key.Other 0) 5 600 [400] (by decide)
      (by decide) (by decide)).2.1,
    (unmapped_key_is_inert _ (Key.Other 0) 5 600 [400] (by decide)
      (by decide) (by decide)).2.2.2.2.2⟩

/-- Any `HoldProgress` event produced by the monitor's progress loop comes
from a record that is neither consumed nor hold-triggered, and carries the
exact fraction `elapsed / threshold`, which the loop only emits when it is
below `1`. -/
theorem holdScan_mem (h : InputHandler) (now : Nat) (k : Key) (f : ℚ) :
    ∀ l : List (Key × KeyState),
      KeyEvent.HoldProgress k f ∈ holdScanEvents h now l →
      ∃ st : KeyState, (k, st) ∈ l ∧ st.consumed = false
        ∧ st.hold_triggered = false
        ∧ f = ((now - st.press_time : Nat) : ℚ) / (h.hold_threshold : ℚ)
        ∧ f < 1 := by
  intro l
  induction l with
  | nil => simp [holdScanEvents]
  | cons p rest ih =>
    obtain ⟨k1, st1⟩ := p
    intro hmem
    by_cases hcond : (!st1.consumed && !st1.hold_triggered
        && h.matches_current_command k1
        && h.current_command_requires_hold) = true
    · rw [holdScanEvents] at hmem
      rw [if_pos hcond] at hmem
      simp only [Bool.and_eq_true, Bool.not_eq_true'] at hcond
      obtain ⟨⟨⟨hc1, ht1⟩, _⟩, _⟩ := hcond
      by_cases hp : (1 : ℚ) ≤
          ((now - st1.press_time : Nat) : ℚ) / (h.hold_threshold : ℚ)
      · rw [if_pos hp] at hmem
        obtain ⟨st, hst, hrest⟩ := ih hmem
        exact ⟨st, List.mem_cons_of_mem _ hst, hrest⟩
      · rw [if_neg hp] at hmem
        rcases List.mem_cons.mp hmem with heq | hmem2
        · obtain ⟨hk, hf⟩ : k = k1 ∧ f = min (((now - st1.press_time : Nat)
              : ℚ) / (h.hold_threshold : ℚ)) 1 := by
            injection heq with h1 h2
            exact ⟨h1, h2⟩
          subst hk
          have hlt : ((now - st1.press_time : Nat) : ℚ)
              / (h.hold_threshold : ℚ) < 1 := lt_of_not_le hp
          refine ⟨st1, List.mem_cons_self _ _, hc1, ht1, ?_, ?_⟩
          · rw [hf, min_eq_left hlt.le]
          · rw [hf, min_eq_left hlt.le]; exact hlt
        · obtain ⟨st, hst, hrest⟩ := ih hmem2
          exact ⟨st, List.mem_cons_of_mem _ hst, hrest⟩
    · rw [holdScanEvents] at hmem
      rw [if_neg hcond] at hmem
      obtain ⟨st, hst, hrest⟩ := ih hmem
      exact ⟨st, List.mem_cons_of_mem _ hst, hrest⟩

/-- In a table whose keys are pairwise distinct, a key determines its
record. -/
theorem record_unique_of_nodup_keys (k : Key) (a b : KeyState) :
    ∀ l : List (Key × KeyState), (l.map Prod.fst).Nodup →
      (k, a) ∈ l → (k, b) ∈ l → a = b := by
  intro l
  induction l with
  | nil => simp
  | cons p rest ih =>
    intro hnd ha hb
    obtain ⟨k1, st1⟩ := p
    simp only [List.map_cons, List.nodup_cons] at hnd
    rcases List.mem_cons.mp ha with ha1 | ha2
    · rcases List.mem_cons.mp hb with hb1 | hb2
      · injection ha1 with hka h1
        injection hb1 with hkb h2
        rw [h1, h2]
      · exfalso
        injection ha1 with hka h1
        apply hnd.1
        rw [← hka]
        exact List.mem_map_of_mem Prod.fst hb2
    · rcases List.mem_cons.mp hb with hb1 | hb2
      · exfalso
        injection hb1 with hkb h2
        apply hnd.1
        rw [← hkb]
        exact List.mem_map_of_mem Prod.fst ha2
      · exact ih hnd.2 ha2 hb2

/-- C7: every `HoldProgress(k, f)` emitted by the monitor's progress scan
over a table with unique keys comes from a record with `consumed = false`
and `hold_triggered = false` (so no progress is emitted once either flag is
set), its fraction equals `elapsed / threshold` and lies in `[0, 1)`; and
two scans of the same table at non-decreasing times emit non-decreasing
fractions for the same key. -/
theorem hold_progress_fraction (h : InputHandler) (now1 now2 : Nat) (k : Key)
    (f1 f2 : ℚ) (hθ : 0 < h.hold_threshold)
    (hnd : (h.key_states.map Prod.fst).Nodup)
    (h1 : KeyEvent.HoldProgress k f1 ∈ h.progress_scan now1)
    (h2 : KeyEvent.HoldProgress k f2 ∈ h.progress_scan now2)
    (hle : now1 ≤ now2) :
    (∃ st : KeyState, (k, st) ∈ h.key_states ∧ st.consumed = false
      ∧ st.hold_triggered = false
      ∧ f1 = ((now1 - st.press_time : Nat) : ℚ) / (h.hold_threshold : ℚ)
      ∧ 0 ≤ f1 ∧ f1 < 1)
    ∧ f1 ≤ f2 := by
  obtain ⟨st1, hmem1, hc1, ht1, hf1, hlt1⟩ :=
    holdScan_mem h now1 k f1 h.key_states h1
  obtain ⟨st2, hmem2, hc2, ht2, hf2, hlt2⟩ :=
    holdScan_mem h now2 k f2 h.key_states h2
  have hst : st1 = st2 :=
    record_unique_of_nodup_keys k st1 st2 h.key_states hnd hmem1 hmem2
  have h0 : (0 : ℚ) ≤ f1 := by
    rw [hf1]
    apply div_nonneg
    · exact Nat.cast_nonneg _
    · exact Nat.cast_nonneg _
  refine ⟨⟨st1, hmem1, hc1, ht1, hf1, h0, hlt1⟩, ?_⟩
  rw [hf1, hf2, ← hst]
  have hθQ : (0 : ℚ) < (h.hold_threshold : ℚ) := by exact_mod_cast hθ
  have hnum : ((now1 - st1.press_time : Nat) : ℚ)
      ≤ ((now2 - st1.press_time : Nat) : ℚ) := by
    exact_mod_cast Nat.sub_le_sub_right hle _
  exact div_le_div_of_nonneg_right hnum hθQ.le

theorem hold_progress_fraction_witness :
    0 < hHold.hold_threshold
    ∧ (((InputHandler.mk [(Key.Num 2, KeyState.mk 0 false false)]
          (some holdCmd300) 300).key_states.map Prod.fst).Nodup)
    ∧ (KeyEvent.HoldProgress (Key.Num 2) (1/3)
        ∈ (InputHandler.mk [(Key.Num 2, KeyState.mk 0 false false)]
            (some holdCmd300) 300).progress_scan 100)
    ∧ (KeyEvent.HoldProgress (Key.Num 2) (2/3)
        ∈ (InputHandler.mk [(Key.Num 2, KeyState.mk 0 false false)]
            (some holdCmd300) 300).progress_scan 200)
    ∧ (100 : Nat) ≤ 200
    ∧ ((∃ st : KeyState, (Key.Num 2, st)
          ∈ (InputHandler.mk [(Key.Num 2, KeyState.mk 0 false false)]
              (some holdCmd300) 300).key_states
        ∧ st.consumed = false ∧ st.hold_triggered = false
        ∧ (1/3 : ℚ) = ((100 - st.press_time : Nat) : ℚ)
            / ((InputHandler.mk [(Key.Num 2, KeyState.mk 0 false false)]
                (some holdCmd300) 300).hold_threshold : ℚ)
        ∧ (0 : ℚ) ≤ 1/3 ∧ (1/3 : ℚ) < 1)
      ∧ (1/3 : ℚ) ≤ 2/3) := by
  have hm1 : KeyEvent.HoldProgress (Key.Num 2) (1/3)
      ∈ (InputHandler.mk [(Key.Num 2, KeyState.mk 0 false false)]
          (some holdCmd300) 300).progress_scan 100 := by
    simp [InputHandler.progress_scan, holdScanEvents, holdCmd300,
      InputHandler.matches_current_command,
      InputHandler.current_command_requires_hold, key_to_identifier]
    norm_num
  have hm2 : KeyEvent.HoldProgress (Key.Num 2) (2/3)
      ∈ (InputHandler.mk [(Key.Num 2, KeyState.mk 0 false false)]
          (some holdCmd300) 300).progress_scan 200 := by
    simp [InputHandler.progress_scan, holdScanEvents, holdCmd300,
      InputHandler.matches_current_command,
      InputHandler.current_command_requires_hold, key_to_identifier]
    norm_num
  exact ⟨by decide, by decide, hm1, hm2, by decide,
    hold_progress_fraction _ 100 200 (Key.Num 2) (1/3) (2/3) (by decide)
      (by decide) hm1 hm2 (by decide)⟩

/-- The per-record frame condition of one `check_hold_complete` pass with
result `r`: the key, `press_time` and `consumed` are unchanged, and the
record itself is unchanged unless the pass returned this record's key, in
which case only `hold_triggered` was flipped from `false` to `true`. -/
def monitorFrame (r : Option Key) (p q : Key × KeyState) : Prop :=
  q.1 = p.1 ∧ q.2.press_time = p.2.press_time ∧ q.2.consumed = p.2.consumed
  ∧ (q.2 = p.2 ∨ (r = some p.1 ∧ p.2.hold_triggered = false
      ∧ q.2 = { p.2 with hold_triggered := true }))

theorem monitorFrame_refl (r : Option Key) (p : Key × KeyState) :
    monitorFrame r p p := ⟨rfl, rfl, rfl, Or.inl rfl⟩

theorem checkHoldLoop_frame (h : InputHandler) (now : Nat) :
    ∀ l : List (Key × KeyState),
      List.Forall₂ (monitorFrame (checkHoldLoop h now l).2) l
        (checkHoldLoop h now l).1 := by
  intro l
  induction l with
  | nil => exact List.Forall₂.nil
  | cons p rest ih =>
    obtain ⟨k1, st1⟩ := p
    by_cases hcond : (!st1.consumed && !st1.hold_triggered
        && decide (h.hold_threshold ≤ now - st1.press_time)
        && h.matches_current_command k1
        && h.current_command_requires_hold) = true
    · simp only [checkHoldLoop, hcond, if_true]
      refine List.Forall₂.cons ?_ ?_
      · refine ⟨rfl, rfl, rfl, Or.inr ⟨rfl, ?_, rfl⟩⟩
        simp only [Bool.and_eq_true, Bool.not_eq_true'] at hcond
        exact hcond.1.1.1.2
      · exact List.forall₂_same.mpr (fun x _ => monitorFrame_refl _ x)
    · simp only [checkHoldLoop, hcond, Bool.false_eq_true, if_false]
      exact List.Forall₂.cons (monitorFrame_refl _ _) ih

/-- Filtering the diagonal of a list zipped with itself by disequality
gives nothing. -/
theorem filter_ne_zip_self (l : List (Key × KeyState)) :
    (l.zip l).filter (fun pq => decide (pq.1 ≠ pq.2)) = [] := by
  induction l with
  | nil => rfl
  | cons a rest ih =>
    have hd : (fun pq : (Key × KeyState) × (Key × KeyState) =>
        decide (pq.1 ≠ pq.2)) (a, a) = false := by simp
    simp only [List.zip_cons_cons, List.filter_cons, hd, Bool.false_eq_true,
      if_false]
    exact ih

/-- The number of positions at which one `check_hold_complete` pass changes
the table is at most one. -/
theorem checkHoldLoop_change_count (h : InputHandler) (now : Nat) :
    ∀ l : List (Key × KeyState),
      ((l.zip (checkHoldLoop h now l).1).filter
        (fun pq => decide (pq.1 ≠ pq.2))).length ≤ 1 := by
  intro l
  induction l with
  | nil => simp [checkHoldLoop]
  | cons p rest ih =>
    obtain ⟨k1, st1⟩ := p
    by_cases hcond : (!st1.consumed && !st1.hold_triggered
        && decide (h.hold_threshold ≤ now - st1.press_time)
        && h.matches_current_command k1
        && h.current_command_requires_hold) = true
    · simp only [checkHoldLoop, hcond, if_true]
      simp only [List.zip_cons_cons, List.filter_cons, filter_ne_zip_self]
      split
      · simp
      · simp
    · simp only [checkHoldLoop, hcond, Bool.false_eq_true, if_false]
      simp only [List.zip_cons_cons, List.filter_cons]
      split
      · next hne =>
        exfalso
        simp at hne
      · exact ih

/-- C8: one monitor pass (`check_hold_complete`) never adds or removes a
record, never changes any record's key, `press_time` or `consumed`, changes
at most one record, and the only change it can make is flipping
`hold_triggered` from `false` to `true` on the record whose key it returns
as hold-complete (the progress half of the tick, `progress_scan`, only
reads the table and returns events). -/
theorem monitor_frame_effect (h : InputHandler) (now : Nat) :
    List.Forall₂ (monitorFrame (h.check_hold_complete now).2)
      h.key_states (h.check_hold_complete now).1.key_states
    ∧ ((h.key_states.zip (h.check_hold_complete now).1.key_states).filter
        (fun pq => decide (pq.1 ≠ pq.2))).length ≤ 1 := by
  constructor
  · unfold InputHandler.check_hold_complete
    simpa using checkHoldLoop_frame h now h.key_states
  · unfold InputHandler.check_hold_complete
    simpa using checkHoldLoop_change_count h now h.key_states

/-- C9: with a loaded combo file, `advance_command` steps the index to
`(i + 1) mod n` over the `n` non-title steps (wrapping to zero after the
last step) and `previous_command` steps it to `i - 1` with a floor at zero
(no backward wraparound); when the non-title step list is empty, both
operations leave the state unchanged and return no result. -/
theorem sequencer_advance_previous (s : SeqState) (f : ComboFile)
    (hf : s.combo_file = some f) :
    (nonTitleCommands f ≠ [] →
      (advance_command s).1.current_index
          = (s.current_index + 1) % (nonTitleCommands f).length
        ∧ (advance_command s).1.combo_file = s.combo_file
        ∧ (previous_command s).1.current_index = s.current_index - 1
        ∧ (previous_command s).1.combo_file = s.combo_file)
    ∧ (nonTitleCommands f = [] →
        advance_command s = (s, none)
        ∧ previous_command s = (s, none)) := by
  unfold advance_command previous_command
  rw [hf]
  constructor
  · intro hne
    have hie : (nonTitleCommands f).isEmpty = false := by
      simpa [List.isEmpty_iff] using hne
    refine ⟨by simp [hie], by simp [hie], ?_, ?_⟩
    · by_cases hi : 0 < s.current_index
      · simp [hie, hi]
      · have h0 : s.current_index = 0 := by omega
        simp [hie, hi, h0]
    · by_cases hi : 0 < s.current_index
      · simp [hie, hi, hf]
      · simp [hie, hi, hf]
  · intro he
    have hie : (nonTitleCommands f).isEmpty = true := by simp [he]
    refine ⟨by simp [hie], ?_⟩
    simp only [hie, if_true]
    simp [get_current_command_internal, hf, he]

/-- Test fixture: a four-step tap-only combo file. -/
def tapCmd2 : ComboCommand :=
  ComboCommand.mk (KeyIdentifier.Number 2) InputType.Tap "" "" "" false

/-- Test fixture: a combo file with four non-title steps. -/
def demoFile : ComboFile :=
  ComboFile.mk "demo" [tapCmd2, tapCmd2, tapCmd2, tapCmd2]

theorem sequencer_advance_previous_witness :
    (SeqState.mk (some demoFile) 3).combo_file = some demoFile
    ∧ ((nonTitleCommands demoFile ≠ [] →
        (advance_command (SeqState.mk (some demoFile) 3)).1.current_index
            = (3 + 1) % (nonTitleCommands demoFile).length
          ∧ (advance_command (SeqState.mk (some demoFile) 3)).1.combo_file
            = (SeqState.mk (some demoFile) 3).combo_file
          ∧ (previous_command (SeqState.mk
              (some demoFile) 3)).1.current_index = 3 - 1
          ∧ (previous_command (SeqState.mk (some demoFile) 3)).1.combo_file
            = (SeqState.mk (some demoFile) 3).combo_file)
      ∧ (nonTitleCommands demoFile = [] →
          advance_command (SeqState.mk (some demoFile) 3)
            = (SeqState.mk (some demoFile) 3, none)
          ∧ previous_command (SeqState.mk (some demoFile) 3)
            = (SeqState.mk (some demoFile) 3, none))) :=
  ⟨rfl, sequencer_advance_previous (SeqState.mk (some demoFile) 3) demoFile
    rfl⟩

/-- Two handlers that agree on key matching, on whether the current command
requires holding, on the threshold, and on the table, run `checkHoldLoop`
identically. -/
theorem checkHoldLoop_congr (g1 g2 : InputHandler) (now : Nat)
    (hm : ∀ k2 : Key, g1.matches_current_command k2
      = g2.matches_current_command k2)
    (hH : g1.current_command_requires_hold = g2.current_command_requires_hold)
    (ht : g1.hold_threshold = g2.hold_threshold) :
    ∀ l, checkHoldLoop g1 now l = checkHoldLoop g2 now l := by
  intro l
  induction l with
  | nil => rfl
  | cons p rest ih =>
    obtain ⟨k1, st1⟩ := p
    simp only [checkHoldLoop, hm, hH, ht, ih]

/-- Likewise for the progress loop. -/
theorem holdScanEvents_congr (g1 g2 : InputHandler) (now : Nat)
    (hm : ∀ k2 : Key, g1.matches_current_command k2
      = g2.matches_current_command k2)
    (hH : g1.current_command_requires_hold = g2.current_command_requires_hold)
    (ht : g1.hold_threshold = g2.hold_threshold) :
    ∀ l, holdScanEvents g1 now l = holdScanEvents g2 now l := by
  intro l
  induction l with
  | nil => rfl
  | cons p rest ih =>
    obtain ⟨k1, st1⟩ := p
    simp only [holdScanEvents, hm, hH, ht, ih]

/-- The handler `h` with its current command replaced by `cmd` carrying a
hold input type with the given `duration_ms`. -/
def withHold (h : InputHandler) (cmd : ComboCommand) (d : Nat) : InputHandler :=
  { h with
    current_command := some { cmd with input_type := InputType.Hold d } }

/-- Two handlers agreeing on the table, key matching, hold requirement and
threshold produce the same release event and the same resulting table. -/
theorem on_key_release_congr (g1 g2 : InputHandler) (k : Key) (now : Nat)
    (hks : g1.key_states = g2.key_states)
    (hm : ∀ k2 : Key, g1.matches_current_command k2
      = g2.matches_current_command k2)
    (hH : g1.current_command_requires_hold = g2.current_command_requires_hold)
    (ht : g1.hold_threshold = g2.hold_threshold) :
    (g1.on_key_release k now).2 = (g2.on_key_release k now).2
    ∧ (g1.on_key_release k now).1.key_states
      = (g2.on_key_release k now).1.key_states := by
  unfold InputHandler.on_key_release
  rw [hks]
  cases hlk : lookupKey g2.key_states k with
  | none => exact ⟨rfl, rfl⟩
  | some st =>
    simp only [hlk, matches_update_states, requires_hold_update_states]
    simp only [hm, hH, ht]
    constructor
    · repeat first | rfl | split
    · repeat first | rfl | split

/-- C10: both hold-decision paths compare elapsed time against the
handler's own construction-time `hold_threshold` and never read the
`duration_ms` carried inside `InputType::Hold`: replacing the current
command's hold duration by any other value changes neither the event and
table produced by `on_key_release`, nor the result and table of
`check_hold_complete`, nor the progress scan; and the default threshold of
`InputHandler::new` is 300 ms. -/
theorem hold_duration_ms_never_read (h : InputHandler) (cmd : ComboCommand)
    (d d' : Nat) (k : Key) (now : Nat) :
    (((withHold h cmd d).on_key_release k now).2
        = ((withHold h cmd d').on_key_release k now).2)
    ∧ (((withHold h cmd d).on_key_release k now).1.key_states
        = ((withHold h cmd d').on_key_release k now).1.key_states)
    ∧ (((withHold h cmd d).check_hold_complete now).2
        = ((withHold h cmd d').check_hold_complete now).2)
    ∧ (((withHold h cmd d).check_hold_complete now).1.key_states
        = ((withHold h cmd d').check_hold_complete now).1.key_states)
    ∧ ((withHold h cmd d).progress_scan now
        = (withHold h cmd d').progress_scan now)
    ∧ InputHandler.new.hold_threshold = 300 := by
  have hm : ∀ k2 : Key, (withHold h cmd d).matches_current_command k2
      = (withHold h cmd d').matches_current_command k2 := fun _ => rfl
  have hH : (withHold h cmd d).current_command_requires_hold
      = (withHold h cmd d').current_command_requires_hold := rfl
  have hrel := on_key_release_congr (withHold h cmd d) (withHold h cmd d')
    k now rfl hm hH rfl
  have hloop := checkHoldLoop_congr (withHold h cmd d) (withHold h cmd d')
    now hm hH rfl h.key_states
  refine ⟨hrel.1, hrel.2, ?_, ?_, ?_, rfl⟩
  · unfold InputHandler.check_hold_complete
    rw [show (withHold h cmd d).key_states = h.key_states from rfl,
      show (withHold h cmd d').key_states = h.key_states from rfl, hloop]
  · unfold InputHandler.check_hold_complete
    rw [show (withHold h cmd d).key_states = h.key_states from rfl,
      show (withHold h cmd d').key_states = h.key_states from rfl, hloop]
  · unfold InputHandler.progress_scan
    rw [show (withHold h cmd d).key_states = h.key_states from rfl,
      show (withHold h cmd d').key_states = h.key_states from rfl]
    exact holdScanEvents_congr _ _ now hm hH rfl h.key_states

end ComboNavi
